import Mathlib

/-!
Shallow embedding of the path2json Cloudflare worker (src/worker.js).

JavaScript strings are sequences of UTF-16 code units; we model them as
`List Nat` with every element < 0x10000.  `utf16` converts a Lean string
literal to that representation (astral characters become surrogate pairs),
so `.length` of the model list coincides with JavaScript's `String.length`.
-/

namespace Path2Json

/-- UTF-16 code units of one Unicode scalar value (JS string element view). -/
def cuOfChar (c : Char) : List Nat :=
  let n := c.toNat
  if n < 0x10000 then [n]
  else [0xD800 + (n - 0x10000) / 0x400, 0xDC00 + (n - 0x10000) % 0x400]

/-- A Lean string literal as the list of UTF-16 code units of the JS string. -/
def utf16 (s : String) : List Nat :=
  s.data.flatMap cuOfChar

/-- ASCII lowercasing of one code unit.  `String.prototype.toLowerCase` agrees
with this on every code unit that can begin one of the ASCII trigger
prefixes used below, which is all the model needs. -/
def toLowerCU (n : Nat) : Nat :=
  if 65 ≤ n ∧ n ≤ 90 then n + 32 else n

/-- ASCII uppercasing of one code unit (used by the base32 decoder, whose
input is already filtered down to ASCII). -/
def toUpperCU (n : Nat) : Nat :=
  if 97 ≤ n ∧ n ≤ 122 then n - 32 else n

/-- Lowercase a JS string code-unit-wise. -/
def toLowerStr (s : List Nat) : List Nat :=
  s.map toLowerCU

/- ---------------------------------------------------------------------
Path splitting: `url.pathname.replace(/^\/+|\/+$/g, "").split("/").filter(Boolean)`
--------------------------------------------------------------------- -/

/-- Drop leading and trailing runs of `/` (code unit 47), the
`replace(/^\/+|\/+$/g, "")` step. -/
def trimSlashes (s : List Nat) : List Nat :=
  ((s.dropWhile (fun c => c = 47)).reverse.dropWhile (fun c => c = 47)).reverse

/-- `String.prototype.split("/")`: the (possibly empty) chunks between `/`s. -/
def splitOnSlash : List Nat → List (List Nat)
  | [] => [[]]
  | c :: rest =>
    if c = 47 then
      [] :: splitOnSlash rest
    else
      match splitOnSlash rest with
      | [] => [[c]]
      | p :: ps => (c :: p) :: ps

/-- The worker's `parts`: trimmed path split on `/`, empty chunks discarded
(`filter(Boolean)`: the empty string is falsy). -/
def pathParts (pathname : List Nat) : List (List Nat) :=
  (splitOnSlash (trimSlashes pathname)).filter (fun p => !p.isEmpty)

/-- The worker's `START_PREFIXES` array. -/
def START_PREFIXES : List (List Nat) :=
  [utf16 "\x7b", utf16 "%7b", utf16 "7b", utf16 "pm", utf16 "ey"]

/-- Whether a segment, lowercased, starts with one of the trigger prefixes
(the body of the worker's start-index loop). -/
def hasTriggerPrefix (p : List Nat) : Bool :=
  START_PREFIXES.any (fun pre => pre.isPrefixOf (toLowerStr p))

/-- The worker's start-index scan: first index whose segment triggers,
starting the count at `i`. -/
def findStartAux (i : Nat) (parts : List (List Nat)) : Option Nat :=
  match parts with
  | [] => none
  | p :: rest => if hasTriggerPrefix p then some i else findStartAux (i + 1) rest

/- ---------------------------------------------------------------------
Alphabet filters (the strip* helpers of the worker)
--------------------------------------------------------------------- -/

/-- Code unit is an ASCII digit. -/
def isDigitCU (n : Nat) : Bool := 48 ≤ n && n ≤ 57

/-- Code unit is an ASCII letter. -/
def isAlphaCU (n : Nat) : Bool := (65 ≤ n && n ≤ 90) || (97 ≤ n && n ≤ 122)

/-- Regex class `[A-Za-z0-9\-_]` of `stripNonB64Url`. -/
def isB64UrlChar (n : Nat) : Bool :=
  isAlphaCU n || isDigitCU n || n = 45 || n = 95

/-- Regex class `[A-Za-z0-9+/=]` of `stripNonB64Std` (note: `=` is kept). -/
def isB64StdKeptChar (n : Nat) : Bool :=
  isAlphaCU n || isDigitCU n || n = 43 || n = 47 || n = 61

/-- Regex class `[A-Z2-7=]` with the `i` flag, of `stripNonBase32`. -/
def isBase32KeptChar (n : Nat) : Bool :=
  isAlphaCU n || (50 ≤ n && n ≤ 55) || n = 61

/-- Regex class `[A-Fa-f0-9]` of `stripNonHex`. -/
def isHexChar (n : Nat) : Bool :=
  isDigitCU n || (65 ≤ n && n ≤ 70) || (97 ≤ n && n ≤ 102)

/-- Worker `stripNonB64Url`. -/
def stripNonB64Url (s : List Nat) : List Nat := s.filter isB64UrlChar

/-- Worker `stripNonB64Std`. -/
def stripNonB64Std (s : List Nat) : List Nat := s.filter isB64StdKeptChar

/-- Worker `stripNonBase32`. -/
def stripNonBase32 (s : List Nat) : List Nat := s.filter isBase32KeptChar

/-- Worker `stripNonHex`. -/
def stripNonHex (s : List Nat) : List Nat := s.filter isHexChar

/-- Worker `looksLikeB64Prefix`: first two characters, lowercased, are `ey`. -/
def looksLikeB64Prefix (s : List Nat) : Bool :=
  toLowerStr (s.take 2) = utf16 "ey"

/-- Worker `looksLikeBase32Prefix`: first two characters, lowercased, are
`pm`, `on` or `em`. -/
def looksLikeBase32Prefix (s : List Nat) : Bool :=
  [utf16 "pm", utf16 "on", utf16 "em"].contains (toLowerStr (s.take 2))

/-- Worker `looksLikeHexPrefix`: first two characters, lowercased, are `7b`. -/
def looksLikeHexPrefix (s : List Nat) : Bool :=
  toLowerStr (s.take 2) = utf16 "7b"

/- ---------------------------------------------------------------------
Hex digits and UTF-8 / UTF-16 plumbing
--------------------------------------------------------------------- -/

/-- Value of one hex digit code unit, if it is one. -/
def hexDigitVal (n : Nat) : Option Nat :=
  if 48 ≤ n ∧ n ≤ 57 then some (n - 48)
  else if 65 ≤ n ∧ n ≤ 70 then some (n - 55)
  else if 97 ≤ n ∧ n ≤ 102 then some (n - 87)
  else none

/-- Byte value of two hex digit code units. -/
def hexByte (a b : Nat) : Option Nat :=
  match hexDigitVal a, hexDigitVal b with
  | some x, some y => some (x * 16 + y)
  | _, _ => none

/-- UTF-16 code units of a code point (astral values become surrogate pairs). -/
def utf16OfCodePoint (v : Nat) : List Nat :=
  if v < 0x10000 then [v]
  else [0xD800 + (v - 0x10000) / 0x400, 0xDC00 + (v - 0x10000) % 0x400]

/-- UTF-8 continuation byte. -/
def isContByte (n : Nat) : Bool := 0x80 ≤ n && n ≤ 0xBF

/-- Strict UTF-8 decode of one complete multi-byte sequence: rejects
overlong forms, surrogates and values above U+10FFFF, exactly the
sequences `decodeURIComponent` throws `URIError` on. -/
def utf8SeqCodePoint : List Nat → Option Nat
  | [b1, b2] =>
    if 0xC2 ≤ b1 ∧ b1 ≤ 0xDF ∧ isContByte b2 then
      some ((b1 - 0xC0) * 0x40 + (b2 - 0x80))
    else none
  | [b1, b2, b3] =>
    if 0xE0 ≤ b1 ∧ b1 ≤ 0xEF ∧ isContByte b2 ∧ isContByte b3 then
      let v := (b1 - 0xE0) * 0x1000 + (b2 - 0x80) * 0x40 + (b3 - 0x80)
      if 0x800 ≤ v ∧ ¬ (0xD800 ≤ v ∧ v ≤ 0xDFFF) then some v else none
    else none
  | [b1, b2, b3, b4] =>
    if 0xF0 ≤ b1 ∧ b1 ≤ 0xF4 ∧ isContByte b2 ∧ isContByte b3 ∧ isContByte b4 then
      let v := (b1 - 0xF0) * 0x40000 + (b2 - 0x80) * 0x1000
               + (b3 - 0x80) * 0x40 + (b4 - 0x80)
      if 0x10000 ≤ v ∧ v ≤ 0x10FFFF then some v else none
    else none
  | _ => none

/-- Read `k` consecutive `%XY` escapes (the continuation bytes of one UTF-8
sequence in the ECMAScript `Decode` algorithm). -/
def readEscBytes : Nat → List Nat → Option (List Nat × List Nat)
  | 0, s => some ([], s)
  | k + 1, 37 :: a :: b :: rest =>
    match hexByte a b with
    | none => none
    | some byte => (readEscBytes k rest).map (fun r => (byte :: r.1, r.2))
  | _ + 1, _ => none

/-- ECMAScript `Decode` with an empty reserved set, i.e. `decodeURIComponent`.
The `fuel` argument only forces structural recursion; it never runs out when
started above the input length, since every step consumes at least one unit. -/
def decodeURIAux : Nat → List Nat → Option (List Nat)
  | 0, _ => none
  | _ + 1, [] => some []
  | fuel + 1, c :: rest =>
    if c = 37 then
      match rest with
      | a :: b :: rest2 =>
        match hexByte a b with
        | none => none
        | some byte =>
          if byte < 0x80 then
            (decodeURIAux fuel rest2).map (fun t => byte :: t)
          else
            let n : Nat :=
              if byte < 0xC0 then 1 else if byte < 0xE0 then 2
              else if byte < 0xF0 then 3 else if byte < 0xF8 then 4 else 5
            if n = 1 ∨ n = 5 then none
            else
              match readEscBytes (n - 1) rest2 with
              | none => none
              | some (bs, rest3) =>
                match utf8SeqCodePoint (byte :: bs) with
                | none => none
                | some v =>
                  (decodeURIAux fuel rest3).map (fun t => utf16OfCodePoint v ++ t)
      | _ => none
    else
      (decodeURIAux fuel rest).map (fun t => c :: t)

/-- Worker `safeDecodeURIComponent`: `decodeURIComponent` with the `URIError`
caught and turned into `null` (`none`). -/
def safeDecodeURIComponent (s : List Nat) : Option (List Nat) :=
  decodeURIAux (s.length + 1) s

/-- WHATWG UTF-8 decode with U+FFFD replacement (the non-fatal `TextDecoder`),
maximal-subpart error handling.  `fuel` forces structural recursion and never
runs out when started above the input length. -/
def utf8LossyAux : Nat → List Nat → List Nat
  | 0, _ => []
  | _ + 1, [] => []
  | fuel + 1, b :: rest =>
    if b < 0x80 then b :: utf8LossyAux fuel rest
    else if 0xC2 ≤ b ∧ b ≤ 0xDF then
      match rest with
      | [] => [0xFFFD]
      | c :: rest2 =>
        if isContByte c then
          ((b - 0xC0) * 0x40 + (c - 0x80)) :: utf8LossyAux fuel rest2
        else 0xFFFD :: utf8LossyAux fuel rest
    else if 0xE0 ≤ b ∧ b ≤ 0xEF then
      let lo := if b = 0xE0 then 0xA0 else 0x80
      let hi := if b = 0xED then 0x9F else 0xBF
      match rest with
      | [] => [0xFFFD]
      | c :: rest2 =>
        if lo ≤ c ∧ c ≤ hi then
          match rest2 with
          | [] => [0xFFFD]
          | d :: rest3 =>
            if isContByte d then
              ((b - 0xE0) * 0x1000 + (c - 0x80) * 0x40 + (d - 0x80))
                :: utf8LossyAux fuel rest3
            else 0xFFFD :: utf8LossyAux fuel rest2
        else 0xFFFD :: utf8LossyAux fuel rest
    else if 0xF0 ≤ b ∧ b ≤ 0xF4 then
      let lo := if b = 0xF0 then 0x90 else 0x80
      let hi := if b = 0xF4 then 0x8F else 0xBF
      match rest with
      | [] => [0xFFFD]
      | c :: rest2 =>
        if lo ≤ c ∧ c ≤ hi then
          match rest2 with
          | [] => [0xFFFD]
          | d :: rest3 =>
            if isContByte d then
              match rest3 with
              | [] => [0xFFFD]
              | e :: rest4 =>
                if isContByte e then
                  ((b - 0xF0) * 0x40000 + (c - 0x80) * 0x1000
                    + (d - 0x80) * 0x40 + (e - 0x80)) :: utf8LossyAux fuel rest4
                else 0xFFFD :: utf8LossyAux fuel rest3
            else 0xFFFD :: utf8LossyAux fuel rest2
        else 0xFFFD :: utf8LossyAux fuel rest
    else 0xFFFD :: utf8LossyAux fuel rest

/-- Decode a byte list as UTF-8 text (non-fatal), as UTF-16 code units.
This models both `new TextDecoder().decode(...)` and the worker's
`utf8FromBytes` (whose binary-string input holds one byte per unit). -/
def utf8FromBytes (bytes : List Nat) : List Nat :=
  (utf8LossyAux (bytes.length + 1) bytes).flatMap utf16OfCodePoint

/- ---------------------------------------------------------------------
atob (WHATWG forgiving-base64) and the worker's codecs
--------------------------------------------------------------------- -/

/-- ASCII whitespace removed by forgiving-base64. -/
def isAsciiWhitespace (n : Nat) : Bool :=
  n = 9 || n = 10 || n = 12 || n = 13 || n = 32

/-- Value of a standard base64 alphabet character. -/
def b64CharVal (n : Nat) : Option Nat :=
  if 65 ≤ n ∧ n ≤ 90 then some (n - 65)
  else if 97 ≤ n ∧ n ≤ 122 then some (n - 71)
  else if 48 ≤ n ∧ n ≤ 57 then some (n + 4)
  else if n = 43 then some 62
  else if n = 47 then some 63
  else none

/-- Remove at most two trailing `=` (code 61), the forgiving-base64 step
applied when the length is a multiple of four. -/
def dropUpTo2TrailingEq (s : List Nat) : List Nat :=
  match s.reverse with
  | 61 :: 61 :: t => t.reverse
  | 61 :: t => t.reverse
  | _ => s

/-- Map every character to its base64 value; fail on the first invalid one. -/
def b64Vals : List Nat → Option (List Nat)
  | [] => some []
  | c :: rest =>
    match b64CharVal c with
    | none => none
    | some v => (b64Vals rest).map (fun vs => v :: vs)

/-- Reassemble 6-bit values into bytes; a trailing group of 2 or 3 values
yields 1 or 2 bytes (low bits discarded). -/
def b64BytesOfVals : List Nat → List Nat
  | a :: b :: c :: d :: rest =>
    (a * 4 + b / 16) :: ((b % 16) * 16 + c / 4) :: ((c % 4) * 64 + d)
      :: b64BytesOfVals rest
  | [a, b] => [a * 4 + b / 16]
  | [a, b, c] => [a * 4 + b / 16, (b % 16) * 16 + c / 4]
  | _ => []

/-- `atob`: WHATWG forgiving-base64 decode to a list of bytes, `none` on the
`InvalidCharacterError` cases. -/
def atobJS (s : List Nat) : Option (List Nat) :=
  let t0 := s.filter (fun c => !isAsciiWhitespace c)
  let t := if t0.length % 4 = 0 then dropUpTo2TrailingEq t0 else t0
  if t.length % 4 = 1 then none
  else (b64Vals t).map b64BytesOfVals

/-- Worker `padBase64`: pad with `=` to a multiple of 4. -/
def padBase64 (s : List Nat) : List Nat :=
  let rem := s.length % 4
  if rem = 0 then s else s ++ List.replicate (4 - rem) 61

/-- The step of `b64urlToUtf8` replacing every `-` by `+` and every `_`
by `/`. -/
def b64UrlToStdChars (s : List Nat) : List Nat :=
  s.map (fun c => if c = 45 then 43 else if c = 95 then 47 else c)

/-- Worker `b64urlToUtf8`. -/
def b64urlToUtf8 (s : List Nat) : Option (List Nat) :=
  (atobJS (padBase64 (b64UrlToStdChars s))).map utf8FromBytes

/-- Worker `b64StdToUtf8`. -/
def b64StdToUtf8 (s : List Nat) : Option (List Nat) :=
  (atobJS (padBase64 s)).map utf8FromBytes

/-- Index of a character in the RFC 4648 base32 alphabet
`ABCDEFGHIJKLMNOPQRSTUVWXYZ234567`, if present. -/
def base32CharVal (n : Nat) : Option Nat :=
  if 65 ≤ n ∧ n ≤ 90 then some (n - 65)
  else if 50 ≤ n ∧ n ≤ 55 then some (n - 24)
  else none

/-- Remove every trailing `=` (the `replace(/=+$/, "")` step). -/
def dropTrailingEqAll (s : List Nat) : List Nat :=
  (s.reverse.dropWhile (fun c => c = 61)).reverse

/-- The five bits of a base32 value, most significant first. -/
def bitsOfVal5 (v : Nat) : List Nat :=
  [v / 16 % 2, v / 8 % 2, v / 4 % 2, v / 2 % 2, v % 2]

/-- Concatenated bit string of a base32 payload; characters outside the
alphabet are skipped (the worker's `indexOf === -1 → continue`). -/
def base32Bits (s : List Nat) : List Nat :=
  s.flatMap (fun c =>
    match base32CharVal c with
    | some v => bitsOfVal5 v
    | none => [])

/-- Regroup bits into bytes, dropping a trailing partial byte
(the `bits.match(/.{8}/g)` step). -/
def bytesOfBits : List Nat → List Nat
  | b1 :: b2 :: b3 :: b4 :: b5 :: b6 :: b7 :: b8 :: rest =>
    (b1 * 128 + b2 * 64 + b3 * 32 + b4 * 16 + b5 * 8 + b6 * 4 + b7 * 2 + b8)
      :: bytesOfBits rest
  | _ => []

/-- Worker `base32ToUtf8` (never fails: every internal step is total). -/
def base32ToUtf8 (s : List Nat) : Option (List Nat) :=
  let cleaned := dropTrailingEqAll (s.map toUpperCU)
  some (utf8FromBytes (bytesOfBits (base32Bits cleaned)))

/-- Bytes of a hex string whose characters are known to be hex digits
(the worker only calls this on `stripNonHex` output). -/
def hexPairBytes : List Nat → List Nat
  | a :: b :: rest =>
    ((hexDigitVal a).getD 0 * 16 + (hexDigitVal b).getD 0) :: hexPairBytes rest
  | _ => []

/-- Worker `hexToUtf8`: truncate an odd trailing nibble, decode byte pairs,
lossy UTF-8 decode.  On the empty string `"".match(/.{2}/g)` is `null` and
the `.map` on it throws, caught as `null`. -/
def hexToUtf8 (s : List Nat) : Option (List Nat) :=
  let t := if s.length % 2 = 1 then s.dropLast else s
  if t.isEmpty then none
  else some (utf8FromBytes (hexPairBytes t))

/- ---------------------------------------------------------------------
JSON values and JSON.parse
--------------------------------------------------------------------- -/

/-- A parsed JSON value.  Strings are UTF-16 code-unit lists (so lone
surrogates from `\uXXXX` escapes are representable, as in JS); a number is
kept exactly as `m * 10 ^ e` (the value before float64 rounding).  Object
fields are in first-insertion order with later duplicate keys overwriting
the value, as JS property assignment does. -/
inductive JVal where
  | jnull : JVal
  | jbool (b : Bool) : JVal
  | jnum (m : Int) (e : Int) : JVal
  | jstr (s : List Nat) : JVal
  | jarr (elems : List JVal) : JVal
  | jobj (fields : List (List Nat × JVal)) : JVal

/-- JSON whitespace: space, tab, line feed, carriage return. -/
def isJsonWs (n : Nat) : Bool := n = 32 || n = 9 || n = 10 || n = 13

/-- Skip JSON whitespace. -/
def skipWs (s : List Nat) : List Nat := s.dropWhile isJsonWs

/-- Parse the remainder of a JSON string literal (after the opening quote):
contents and rest.  Escapes are exactly the JSON ones; unescaped control
characters below 0x20 are rejected; `\uXXXX` contributes its code unit
verbatim (surrogate halves included), as in JS. -/
def parseStringAux : Nat → List Nat → Option (List Nat × List Nat)
  | 0, _ => none
  | _ + 1, [] => none
  | fuel + 1, c :: rest =>
    if c = 34 then some ([], rest)
    else if c = 92 then
      match rest with
      | [] => none
      | e :: rest2 =>
        if e = 34 ∨ e = 92 ∨ e = 47 then
          (parseStringAux fuel rest2).map (fun r => (e :: r.1, r.2))
        else if e = 98 then (parseStringAux fuel rest2).map (fun r => (8 :: r.1, r.2))
        else if e = 102 then (parseStringAux fuel rest2).map (fun r => (12 :: r.1, r.2))
        else if e = 110 then (parseStringAux fuel rest2).map (fun r => (10 :: r.1, r.2))
        else if e = 114 then (parseStringAux fuel rest2).map (fun r => (13 :: r.1, r.2))
        else if e = 116 then (parseStringAux fuel rest2).map (fun r => (9 :: r.1, r.2))
        else if e = 117 then
          match rest2 with
          | h1 :: h2 :: h3 :: h4 :: rest3 =>
            match hexDigitVal h1, hexDigitVal h2, hexDigitVal h3, hexDigitVal h4 with
            | some x1, some x2, some x3, some x4 =>
              (parseStringAux fuel rest3).map
                (fun r => ((x1 * 4096 + x2 * 256 + x3 * 16 + x4) :: r.1, r.2))
            | _, _, _, _ => none
          | _ => none
        else none
    else if c < 32 then none
    else (parseStringAux fuel rest).map (fun r => (c :: r.1, r.2))

/-- Fold decimal digits onto an accumulator. -/
def digitsVal (acc : Nat) : List Nat → Nat
  | [] => acc
  | d :: rest => digitsVal (acc * 10 + (d - 48)) rest

/-- JSON integer part: `0`, or a nonzero digit followed by digits (a leading
zero stops immediately, so `01` leaves the `1` unconsumed and the text is
rejected upstream, as `JSON.parse` does). -/
def parseIntPart : List Nat → Option (Nat × List Nat)
  | [] => none
  | 48 :: r => some (0, r)
  | d :: r =>
    if isDigitCU d then
      some (digitsVal 0 ((d :: r).takeWhile isDigitCU), (d :: r).dropWhile isDigitCU)
    else none

/-- Optional JSON fraction part: value, number of digits, rest. -/
def parseFracPart : List Nat → Option (Nat × Nat × List Nat)
  | 46 :: r =>
    let ds := r.takeWhile isDigitCU
    if ds.isEmpty then none
    else some (digitsVal 0 ds, ds.length, r.dropWhile isDigitCU)
  | s => some (0, 0, s)

/-- Optional JSON exponent part: signed value, rest. -/
def parseExpPart : List Nat → Option (Int × List Nat)
  | [] => some (0, [])
  | c :: r =>
    if c = 101 ∨ c = 69 then
      let signed : Bool × List Nat :=
        match r with
        | 45 :: t => (true, t)
        | 43 :: t => (false, t)
        | t => (false, t)
      let ds := signed.2.takeWhile isDigitCU
      if ds.isEmpty then none
      else
        some ((if signed.1 then -(digitsVal 0 ds : Int) else (digitsVal 0 ds : Int)),
              signed.2.dropWhile isDigitCU)
    else some (0, c :: r)

/-- Parse a JSON number starting at the head of `s`. -/
def parseNumber (s : List Nat) : Option (JVal × List Nat) :=
  let signed : Bool × List Nat := match s with | 45 :: r => (true, r) | _ => (false, s)
  match parseIntPart signed.2 with
  | none => none
  | some (ip, s2) =>
    match parseFracPart s2 with
    | none => none
    | some (fv, fl, s3) =>
      match parseExpPart s3 with
      | none => none
      | some (ev, s4) =>
        let mag : Nat := ip * 10 ^ fl + fv
        let m : Int := if signed.1 then -(mag : Int) else (mag : Int)
        some (JVal.jnum m (ev - (fl : Int)), s4)

/-- Insert a parsed object member: a duplicate key overwrites in place,
a new key appends (JS property-assignment semantics for string keys). -/
def insertField : List (List Nat × JVal) → List Nat → JVal → List (List Nat × JVal)
  | [], k, v => [(k, v)]
  | (k1, v1) :: rest, k, v =>
    if k1 = k then (k1, v) :: rest else (k1, v1) :: insertField rest k v

/-- Parser mode: a whole value, the members of an object (after `{`, first
non-`}` token reached), or the elements of an array. -/
inductive PMode where
  | value : PMode
  | objBody : PMode
  | members (acc : List (List Nat × JVal)) : PMode
  | arrBody : PMode
  | elems (acc : List JVal) : PMode

/-- The recursive JSON grammar, one fuel-structural function (so that the
kernel can evaluate it).  `fuel` only bounds recursion depth; every third
recursive call consumes at least one code unit, so any fuel above
three times the input length never runs out. -/
def parseJ : Nat → PMode → List Nat → Option (JVal × List Nat)
  | 0, _, _ => none
  | fuel + 1, PMode.value, s =>
    match skipWs s with
    | [] => none
    | c :: rest =>
      if c = 123 then parseJ fuel PMode.objBody rest
      else if c = 91 then parseJ fuel PMode.arrBody rest
      else if c = 34 then
        (parseStringAux (rest.length + 1) rest).map (fun r => (JVal.jstr r.1, r.2))
      else if c = 116 then
        match rest with
        | 114 :: 117 :: 101 :: r => some (JVal.jbool true, r)
        | _ => none
      else if c = 102 then
        match rest with
        | 97 :: 108 :: 115 :: 101 :: r => some (JVal.jbool false, r)
        | _ => none
      else if c = 110 then
        match rest with
        | 117 :: 108 :: 108 :: r => some (JVal.jnull, r)
        | _ => none
      else if c = 45 ∨ isDigitCU c then parseNumber (c :: rest)
      else none
  | fuel + 1, PMode.objBody, s =>
    match skipWs s with
    | 125 :: rest => some (JVal.jobj [], rest)
    | s2 => parseJ fuel (PMode.members []) s2
  | fuel + 1, PMode.members acc, s =>
    match skipWs s with
    | 34 :: rest =>
      match parseStringAux (rest.length + 1) rest with
      | none => none
      | some (key, rest2) =>
        match skipWs rest2 with
        | 58 :: rest3 =>
          match parseJ fuel PMode.value rest3 with
          | none => none
          | some (v, rest4) =>
            match skipWs rest4 with
            | 44 :: rest5 => parseJ fuel (PMode.members (insertField acc key v)) rest5
            | 125 :: rest5 => some (JVal.jobj (insertField acc key v), rest5)
            | _ => none
        | _ => none
    | _ => none
  | fuel + 1, PMode.arrBody, s =>
    match skipWs s with
    | 93 :: rest => some (JVal.jarr [], rest)
    | s2 => parseJ fuel (PMode.elems []) s2
  | fuel + 1, PMode.elems acc, s =>
    match parseJ fuel PMode.value s with
    | none => none
    | some (v, rest) =>
      match skipWs rest with
      | 44 :: rest2 => parseJ fuel (PMode.elems (acc ++ [v])) rest2
      | 93 :: rest2 => some (JVal.jarr (acc ++ [v]), rest2)
      | _ => none

/-- `JSON.parse`: parse a whole text, requiring only trailing whitespace
after the value. -/
def jsonParse (text : List Nat) : Option JVal :=
  match parseJ (3 * text.length + 4) PMode.value text with
  | none => none
  | some (v, rest) => if (skipWs rest).isEmpty then some v else none

/-- JS truthiness of a parsed JSON value (`null`, `false`, `0`, `""` and
`NaN` are falsy; `NaN` cannot arise from JSON). -/
def jsTruthy : JVal → Bool
  | JVal.jnull => false
  | JVal.jbool b => b
  | JVal.jnum m _ => !(m == 0)
  | JVal.jstr s => !s.isEmpty
  | JVal.jarr _ => true
  | JVal.jobj _ => true

/-- Whether `typeof val === "object"` holds in JS (`null` and arrays both
have typeof `object`). -/
def jsTypeofIsObject : JVal → Bool
  | JVal.jnull => true
  | JVal.jarr _ => true
  | JVal.jobj _ => true
  | _ => false

/-- A successful parse attempt: the worker's `{ ok: true, value, rawText }`. -/
structure ParseOk where
  value : JVal
  rawText : List Nat

/-- Worker `parseJson`: JSON-parse `text`, keep the result only when it is
truthy and of typeof `object` (i.e. an object or a non-empty... any array
or object; `null` is excluded by truthiness). -/
def parseJson (text rawText : List Nat) : Option ParseOk :=
  match jsonParse text with
  | some val =>
    if jsTruthy val && jsTypeofIsObject val then some ⟨val, rawText⟩ else none
  | none => none

/- ---------------------------------------------------------------------
The six decode attempts and the orchestrator
--------------------------------------------------------------------- -/

/-- Attempt 1: percent-decode, then JSON (`text ? parseJson(text, text) : fail()`:
`null` and the empty string are both falsy). -/
def attempt1 (input : List Nat) : Option ParseOk :=
  match safeDecodeURIComponent input with
  | some text => if text.isEmpty then none else parseJson text text
  | none => none

/-- Attempt 2: the raw candidate as JSON. -/
def attempt2 (input : List Nat) : Option ParseOk := parseJson input input

/-- Attempt 3: base64url. -/
def attempt3 (input : List Nat) : Option ParseOk :=
  let raw := stripNonB64Url input
  if looksLikeB64Prefix raw then
    match b64urlToUtf8 raw with
    | some text => if text.isEmpty then none else parseJson text text
    | none => none
  else none

/-- Attempt 4: standard base64. -/
def attempt4 (input : List Nat) : Option ParseOk :=
  let raw := stripNonB64Std input
  if looksLikeB64Prefix raw then
    match b64StdToUtf8 raw with
    | some text => if text.isEmpty then none else parseJson text text
    | none => none
  else none

/-- Attempt 5: base32. -/
def attempt5 (input : List Nat) : Option ParseOk :=
  let raw := stripNonBase32 input
  if looksLikeBase32Prefix raw then
    match base32ToUtf8 raw with
    | some text => if text.isEmpty then none else parseJson text text
    | none => none
  else none

/-- Attempt 6: hex. -/
def attempt6 (input : List Nat) : Option ParseOk :=
  let raw := stripNonHex input
  if looksLikeHexPrefix raw then
    match hexToUtf8 raw with
    | some text => if text.isEmpty then none else parseJson text text
    | none => none
  else none

/-- Run a list of attempt results in order, first success wins (the
worker's `for (const f of attempts)` loop). -/
def runAttempts : List (Option ParseOk) → Option ParseOk
  | [] => none
  | r :: rest =>
    match r with
    | some x => some x
    | none => runAttempts rest

/-- The worker's `attempts` array for one candidate. -/
def attemptsOf (input : List Nat) : List (Option ParseOk) :=
  [attempt1 input, attempt2 input, attempt3 input,
   attempt4 input, attempt5 input, attempt6 input]

/-- Worker `tryParseJson`. -/
def tryParseJson (input : List Nat) : Option ParseOk :=
  runAttempts (attemptsOf input)

/- ---------------------------------------------------------------------
The scan over accumulated candidates and the request handler
--------------------------------------------------------------------- -/

/-- Outcome of the core pipeline, as handed to the response wrapper. -/
inductive Outcome where
  | success (v : JVal)
  | noCandidateFound
  | payloadTooLarge
  | exhausted

/-- One step of the worker's accumulation:
`accumulated = accumulated ? accumulated + "/" + part : part`. -/
def joinAcc (acc p : List Nat) : List Nat :=
  if acc.isEmpty then p else acc ++ 47 :: p

/-- The worker's `for (let endIdx = startIdx; ...)` loop over the remaining
segments, with the 64,000-character ceiling on the decoded text. -/
def scanLoop : List Nat → List (List Nat) → Outcome
  | _, [] => Outcome.exhausted
  | acc, p :: rest =>
    let acc2 := joinAcc acc p
    match tryParseJson acc2 with
    | some r =>
      if 64000 < r.rawText.length then Outcome.payloadTooLarge
      else Outcome.success r.value
    | none => scanLoop acc2 rest

/-- The core pipeline on one pathname: find the start segment, then scan. -/
def runPath (pathname : List Nat) : Outcome :=
  let parts := pathParts pathname
  match findStartAux 0 parts with
  | none => Outcome.noCandidateFound
  | some i => scanLoop [] (parts.drop i)

/-- Result of a GET request: the static landing page or a pipeline outcome. -/
inductive FetchResult where
  | landingPage
  | api (o : Outcome)

/-- The GET handler: pathname exactly `/` or `/index.html` serves the landing
page, everything else runs the pipeline. -/
def fetchGet (pathname : List Nat) : FetchResult :=
  if pathname = utf16 "/" ∨ pathname = utf16 "/index.html" then
    FetchResult.landingPage
  else
    FetchResult.api (runPath pathname)

/-- HTTP status the response wrapper assigns to each outcome. -/
def statusOfOutcome : Outcome → Nat
  | Outcome.success _ => 200
  | Outcome.noCandidateFound => 400
  | Outcome.payloadTooLarge => 413
  | Outcome.exhausted => 400

/-- The `error` body text the wrapper emits for each failure outcome. -/
def errorBodyOf : Outcome → Option (List Nat)
  | Outcome.success _ => none
  | Outcome.noCandidateFound => some (utf16 "No JSON-like segment found")
  | Outcome.payloadTooLarge => some (utf16 "Payload too large")
  | Outcome.exhausted =>
    some (utf16 "Could not parse a valid JSON document from the path")

/-- The parts of an incoming request the handler can see.  The worker reads
only `request.method` and `url.pathname`; the query string is carried here
to state that the outcome does not depend on it. -/
structure Request where
  method : List Nat
  pathname : List Nat
  search : List Nat

/-- The core pipeline outcome for a request (the worker derives it from the
pathname alone). -/
def coreOutcome (r : Request) : Outcome := runPath r.pathname

/- ---------------------------------------------------------------------
Spec-side definitions used to state the claims
--------------------------------------------------------------------- -/

/-- The claim's acceptance predicate: the top-level value is an object or an
array (stated structurally, independently of the worker's
truthiness-plus-typeof test). -/
def isObjOrArr : JVal → Bool
  | JVal.jarr _ => true
  | JVal.jobj _ => true
  | _ => false

/-- The standard base64 alphabet as the spec words it for attempt 4:
`A-Z a-z 0-9 + /` (no padding character). -/
def isB64StdAlphabetChar (n : Nat) : Bool :=
  isAlphaCU n || isDigitCU n || n = 43 || n = 47

/-- Join segments with `/` (the `[startIndex..endIndex]` candidate of the
spec's candidate-generator contract). -/
def joinSlash : List (List Nat) → List Nat
  | [] => []
  | [p] => p
  | p :: q :: rest => p ++ 47 :: joinSlash (q :: rest)

/-- The candidate strings the worker's loop accumulates, starting from
accumulator `acc`: each step's `joinAcc` result in order. -/
def accJoins : List Nat → List (List Nat) → List (List Nat)
  | _, [] => []
  | acc, p :: rest => joinAcc acc p :: accJoins (joinAcc acc p) rest

/-- Modelled from the spec's candidate-generator contract: the sequence of
candidates for segments `ps` is the `/`-join of every prefix of `ps`,
in order of increasing end index. -/
def specCandidates : List (List Nat) → List (List Nat)
  | [] => []
  | p :: rest => p :: (specCandidates rest).map (fun c => p ++ 47 :: c)

/-- Run the decode orchestrator over an explicit candidate list, first
success (or size rejection) wins — the spec's scan state machine. -/
def runOverCandidates : List (List Nat) → Outcome
  | [] => Outcome.exhausted
  | c :: rest =>
    match tryParseJson c with
    | some r =>
      if 64000 < r.rawText.length then Outcome.payloadTooLarge
      else Outcome.success r.value
    | none => runOverCandidates rest

/- ---------------------------------------------------------------------
Helper lemmas
--------------------------------------------------------------------- -/

/-- The scan loop never reports the no-candidate failure. -/
theorem scanLoop_ne_noCandidate (ps : List (List Nat)) :
    ∀ acc, scanLoop acc ps ≠ Outcome.noCandidateFound := by
  induction ps with
  | nil => intro acc h; exact Outcome.noConfusion h
  | cons p rest ih =>
    intro acc h
    rw [scanLoop] at h
    rcases hp : tryParseJson (joinAcc acc p) with _ | r
    · rw [hp] at h
      exact ih (joinAcc acc p) h
    · rw [hp] at h
      by_cases hl : 64000 < r.rawText.length <;> simp [hl] at h

/-- The start scan fails exactly when no segment triggers. -/
theorem findStartAux_eq_none_iff (ps : List (List Nat)) :
    ∀ i, findStartAux i ps = none ↔ ∀ p ∈ ps, hasTriggerPrefix p = false := by
  induction ps with
  | nil => intro i; simp [findStartAux]
  | cons p rest ih =>
    intro i
    by_cases hp : hasTriggerPrefix p
    · simp [findStartAux, hp]
    · simp only [findStartAux, if_neg hp, ih (i + 1), List.mem_cons]
      constructor
      · intro h q hq
        rcases hq with hq | hq
        · subst hq; exact Bool.eq_false_iff.mpr hp
        · exact h q hq
      · intro h q hq; exact h q (Or.inr hq)

/-- On a successful start scan, the found index points at the first
triggering segment. -/
theorem findStartAux_some_spec (ps : List (List Nat)) :
    ∀ i j, findStartAux i ps = some j →
      i ≤ j ∧ j - i < ps.length ∧ hasTriggerPrefix (ps.getD (j - i) []) = true
        ∧ ∀ k, k < j - i → hasTriggerPrefix (ps.getD k []) = false := by
  induction ps with
  | nil => intro i j h; exact Option.noConfusion h
  | cons p rest ih =>
    intro i j h
    rw [findStartAux] at h
    by_cases hp : hasTriggerPrefix p
    · rw [if_pos hp] at h
      have hj : i = j := Option.some.inj h
      subst hj
      refine ⟨Nat.le_refl i, ?_, ?_, ?_⟩
      · simp [Nat.sub_self]
      · simp [Nat.sub_self, hp]
      · intro k hk; omega
    · rw [if_neg hp] at h
      obtain ⟨h1, h2, h3, h4⟩ := ih (i + 1) j h
      have hij : i + 1 ≤ j := h1
      have hd : j - i = (j - (i + 1)) + 1 := by omega
      refine ⟨by omega, ?_, ?_, ?_⟩
      · rw [hd]; simpa [List.length_cons] using Nat.succ_lt_succ h2
      · rw [hd]; simpa using h3
      · intro k hk
        match k with
        | 0 => simpa using Bool.eq_false_iff.mpr hp
        | k' + 1 =>
          have : k' < j - (i + 1) := by omega
          simpa using h4 k' this

/-- The start scan over a list whose first trigger is `seg`. -/
theorem findStartAux_append (pre : List (List Nat)) (seg : List Nat)
    (post : List (List Nat)) (hpre : ∀ p ∈ pre, hasTriggerPrefix p = false)
    (hseg : hasTriggerPrefix seg = true) :
    ∀ i, findStartAux i (pre ++ seg :: post) = some (i + pre.length) := by
  induction pre with
  | nil => intro i; simp [findStartAux, hseg]
  | cons p rest ih =>
    intro i
    have hp : hasTriggerPrefix p = false := hpre p (List.mem_cons_self p rest)
    have hrest : ∀ q ∈ rest, hasTriggerPrefix q = false := fun q hq =>
      hpre q (List.mem_cons_of_mem p hq)
    have step : findStartAux i ((p :: rest) ++ seg :: post)
        = findStartAux (i + 1) (rest ++ seg :: post) := by
      rw [List.cons_append, findStartAux, if_neg (by simp [hp])]
    rw [step, ih hrest (i + 1), List.length_cons]
    exact congrArg some (by omega)

/-- Segment membership in a triggering list relates to `List.IsPrefix`. -/
theorem hasTriggerPrefix_eq_false_iff (p : List Nat) :
    hasTriggerPrefix p = false ↔
      ∀ pre ∈ START_PREFIXES, ¬ pre <+: toLowerStr p := by
  simp only [hasTriggerPrefix, List.any_eq_false, Bool.not_eq_true]
  constructor
  · intro h pre hpre hcontra
    have h2 := h pre hpre
    rw [← List.isPrefixOf_iff_prefix] at hcontra
    rw [h2] at hcontra
    exact Bool.noConfusion hcontra
  · intro h pre hpre
    have h2 := h pre hpre
    rw [← List.isPrefixOf_iff_prefix] at h2
    exact Bool.eq_false_iff.mpr h2

/-- The scan loop equals running the orchestrator over the accumulated
candidate list. -/
theorem scanLoop_eq_runOver (ps : List (List Nat)) :
    ∀ acc, scanLoop acc ps = runOverCandidates (accJoins acc ps) := by
  induction ps with
  | nil => intro acc; rfl
  | cons p rest ih =>
    intro acc
    rw [scanLoop, accJoins, runOverCandidates]
    rcases hp : tryParseJson (joinAcc acc p) with _ | r
    · exact ih (joinAcc acc p)
    · rfl

/-- Accumulation from a nonempty accumulator is accumulation from scratch
with the accumulator (and a slash) prepended everywhere. -/
theorem accJoins_ne_nil (ps : List (List Nat)) (hne : ∀ p ∈ ps, p ≠ []) :
    ∀ acc, acc ≠ [] →
      accJoins acc ps = (accJoins [] ps).map (fun c => acc ++ 47 :: c) := by
  induction ps with
  | nil => intro acc _; rfl
  | cons p rest ih =>
    intro acc hacc
    have hp : p ≠ [] := hne p (List.mem_cons_self p rest)
    have hrest : ∀ q ∈ rest, q ≠ [] := fun q hq => hne q (List.mem_cons_of_mem p hq)
    have hjoin : joinAcc acc p = acc ++ 47 :: p := by
      unfold joinAcc
      rw [if_neg (by simpa [List.isEmpty_iff] using hacc)]
    have hjoin0 : joinAcc [] p = p := by unfold joinAcc; simp
    rw [accJoins, accJoins, hjoin, hjoin0, List.map_cons]
    have h1 : accJoins (acc ++ 47 :: p) rest =
        (accJoins [] rest).map (fun c => (acc ++ 47 :: p) ++ 47 :: c) :=
      ih hrest (acc ++ 47 :: p) (by simp)
    have h2 : accJoins p rest = (accJoins [] rest).map (fun c => p ++ 47 :: c) :=
      ih hrest p hp
    rw [h1, h2, List.map_map]
    congr 1
    exact List.map_eq_map_iff.mpr
      (fun c _ => by simp [Function.comp, List.append_assoc])

/-- Accumulation from the empty accumulator produces exactly the spec's
candidate sequence. -/
theorem accJoins_nil_eq_specCandidates (ps : List (List Nat))
    (hne : ∀ p ∈ ps, p ≠ []) :
    accJoins [] ps = specCandidates ps := by
  induction ps with
  | nil => rfl
  | cons p rest ih =>
    have hp : p ≠ [] := hne p (List.mem_cons_self p rest)
    have hrest : ∀ q ∈ rest, q ≠ [] := fun q hq => hne q (List.mem_cons_of_mem p hq)
    have hjoin0 : joinAcc [] p = p := by unfold joinAcc; simp
    rw [accJoins, hjoin0, specCandidates,
      accJoins_ne_nil rest hrest p hp, ih hrest]

/-- Every part produced by `pathParts` is nonempty. -/
theorem pathParts_ne_nil (pathname : List Nat) :
    ∀ p ∈ pathParts pathname, p ≠ [] := by
  intro p hp
  have := List.of_mem_filter hp
  simpa [List.isEmpty_iff] using this

/-- Length of the spec candidate sequence. -/
theorem specCandidates_length (ps : List (List Nat)) :
    (specCandidates ps).length = ps.length := by
  induction ps with
  | nil => rfl
  | cons p rest ih => simp [specCandidates, ih]

/-- The n-th spec candidate is the slash-join of the first `n + 1`
segments. -/
theorem specCandidates_getD (ps : List (List Nat)) :
    ∀ n, n < ps.length →
      (specCandidates ps).getD n [] = joinSlash (ps.take (n + 1)) := by
  induction ps with
  | nil => intro n hn; exact absurd hn (Nat.not_lt_zero n)
  | cons p rest ih =>
    intro n hn
    match n with
    | 0 =>
      rcases rest with _ | ⟨q, rest'⟩ <;> rfl
    | n' + 1 =>
      have hn' : n' < rest.length := by simpa [List.length_cons] using hn
      have hlen : n' < (specCandidates rest).length := by
        rw [specCandidates_length]; exact hn'
      rw [specCandidates, List.getD_cons_succ]
      rw [List.getD_eq_getElem _ _ (by simpa using hlen), List.getElem_map]
      rw [← List.getD_eq_getElem _ _ hlen, ih n' hn']
      have htake : (p :: rest).take (n' + 1 + 1) = p :: rest.take (n' + 1) := rfl
      rw [htake]
      have hne : rest.take (n' + 1) ≠ [] := by
        have : rest ≠ [] := by
          intro h; rw [h] at hn'; exact absurd hn' (Nat.not_lt_zero n')
        rcases rest with _ | ⟨q, rest'⟩
        · exact absurd rfl this
        · simp [List.take]
      rcases htk : rest.take (n' + 1) with _ | ⟨q, ts⟩
      · exact absurd htk hne
      · rw [joinSlash]

/-- Slash-joins of prefixes grow monotonically as string prefixes. -/
theorem joinSlash_take_mono (ps : List (List Nat)) :
    ∀ m n, m ≤ n → n < ps.length →
      joinSlash (ps.take (m + 1)) <+: joinSlash (ps.take (n + 1)) := by
  induction ps with
  | nil => intro m n _ hn; exact absurd hn (Nat.not_lt_zero n)
  | cons p rest ih =>
    intro m n hmn hn
    match m with
    | 0 =>
      match n with
      | 0 => exact List.prefix_refl _
      | n' + 1 =>
        have hn' : n' < rest.length := by simpa [List.length_cons] using hn
        have hrest : rest ≠ [] := by
          intro h; rw [h] at hn'; exact absurd hn' (Nat.not_lt_zero n')
        have htake : (p :: rest).take (n' + 1 + 1) = p :: rest.take (n' + 1) := rfl
        have hne : rest.take (n' + 1) ≠ [] := by
          rcases rest with _ | ⟨q, rest'⟩
          · exact absurd rfl hrest
          · simp [List.take]
        rw [htake]
        rcases htk : rest.take (n' + 1) with _ | ⟨q, ts⟩
        · exact absurd htk hne
        · rw [joinSlash]
          have h1 : (p :: rest).take (0 + 1) = [p] := rfl
          rw [h1, joinSlash]
          exact ⟨47 :: joinSlash (q :: ts), rfl⟩
    | m' + 1 =>
      match n with
      | 0 => exact absurd hmn (by omega)
      | n' + 1 =>
        have hmn' : m' ≤ n' := by omega
        have hn' : n' < rest.length := by simpa [List.length_cons] using hn
        have hm' : m' < rest.length := Nat.lt_of_le_of_lt hmn' hn'
        have hrest : rest ≠ [] := by
          intro h; rw [h] at hn'; exact absurd hn' (Nat.not_lt_zero n')
        have hneM : rest.take (m' + 1) ≠ [] := by
          rcases rest with _ | ⟨q, rest'⟩
          · exact absurd rfl hrest
          · simp [List.take]
        have hneN : rest.take (n' + 1) ≠ [] := by
          rcases rest with _ | ⟨q, rest'⟩
          · exact absurd rfl hrest
          · simp [List.take]
        have htakeM : (p :: rest).take (m' + 1 + 1) = p :: rest.take (m' + 1) := rfl
        have htakeN : (p :: rest).take (n' + 1 + 1) = p :: rest.take (n' + 1) := rfl
        rw [htakeM, htakeN]
        have ihp := ih m' n' hmn' hn'
        rcases htkM : rest.take (m' + 1) with _ | ⟨qM, tsM⟩
        · exact absurd htkM hneM
        rcases htkN : rest.take (n' + 1) with _ | ⟨qN, tsN⟩
        · exact absurd htkN hneN
        rw [htkM, htkN] at ihp
        rw [joinSlash, joinSlash]
        obtain ⟨t, ht⟩ := ihp
        exact ⟨t, by rw [← ht]; simp⟩

/-- Running attempts is first-success-wins. -/
theorem runAttempts_cons (r : Option ParseOk) (rest : List (Option ParseOk)) :
    runAttempts (r :: rest) = r.orElse (fun _ => runAttempts rest) := by
  cases r <;> rfl

/-- An `orElse` whose fallback is `none` is the first option. -/
theorem orElseNoneRight (o : Option ParseOk) : (o.orElse fun _ => none) = o := by
  cases o <;> rfl

/-- Running no attempts fails. -/
theorem runAttempts_nil : runAttempts [] = none := rfl

/-- The worker's acceptance guard (`val && typeof val === "object"`) accepts
exactly objects and arrays. -/
theorem guard_eq_isObjOrArr (v : JVal) :
    (jsTruthy v && jsTypeofIsObject v) = isObjOrArr v := by
  cases v <;> simp [jsTruthy, jsTypeofIsObject, isObjOrArr]

/-- The scan from the empty accumulator runs over the spec's candidate
sequence. -/
theorem scanLoop_nil_eq_spec (ps : List (List Nat)) (hne : ∀ p ∈ ps, p ≠ []) :
    scanLoop [] ps = runOverCandidates (specCandidates ps) := by
  rw [scanLoop_eq_runOver, accJoins_nil_eq_specCandidates ps hne]

/- ---------------------------------------------------------------------
Claim theorems
--------------------------------------------------------------------- -/

/-- C1: for every candidate string, `tryParseJson` runs the six decode
attempts in the fixed priority order percent-decode, raw JSON, base64url,
standard base64, base32, hex, returning the first success; in particular,
when the percent-decode attempt succeeds its result is returned regardless
of the later attempts. -/
theorem claim1_codec_priority (input : List Nat) :
    tryParseJson input =
      ((attempt1 input).orElse fun _ =>
        (attempt2 input).orElse fun _ =>
          (attempt3 input).orElse fun _ =>
            (attempt4 input).orElse fun _ =>
              (attempt5 input).orElse fun _ => attempt6 input)
    ∧ (∀ r, attempt1 input = some r → tryParseJson input = some r) := by
  constructor
  · simp only [tryParseJson, attemptsOf, runAttempts_cons, runAttempts_nil,
      orElseNoneRight]
  · intro r hr
    simp only [tryParseJson, attemptsOf, hr, runAttempts]

/-- C1 witness: on `%7B%7D` the percent-decode attempt succeeds with the
empty object and the orchestrator returns it. -/
theorem claim1_codec_priority_witness :
    tryParseJson (utf16 "%7B%7D") = some ⟨JVal.jobj [], utf16 "\x7b\x7d"⟩ :=
  (claim1_codec_priority (utf16 "%7B%7D")).2 ⟨JVal.jobj [], utf16 "\x7b\x7d"⟩ rfl

/-- C2: the pipeline reports the no-candidate failure (status 400, body
error `No JSON-like segment found`) exactly when no path segment,
lowercased, starts with one of the five trigger prefixes; otherwise the
found start index is the index of the first such segment. -/
theorem claim2_no_candidate_iff (pathname : List Nat) :
    (runPath pathname = Outcome.noCandidateFound ↔
      ∀ p ∈ pathParts pathname, ∀ pre ∈ START_PREFIXES, ¬ pre <+: toLowerStr p)
    ∧ statusOfOutcome Outcome.noCandidateFound = 400
    ∧ errorBodyOf Outcome.noCandidateFound
        = some (utf16 "No JSON-like segment found")
    ∧ (∀ i, findStartAux 0 (pathParts pathname) = some i →
        i < (pathParts pathname).length
        ∧ hasTriggerPrefix ((pathParts pathname).getD i []) = true
        ∧ ∀ j, j < i → hasTriggerPrefix ((pathParts pathname).getD j []) = false) := by
  refine ⟨⟨?_, ?_⟩, rfl, rfl, ?_⟩
  · intro h
    rcases hf : findStartAux 0 (pathParts pathname) with _ | i
    · intro p hp pre hpre
      have hfalse := (findStartAux_eq_none_iff (pathParts pathname) 0).mp hf p hp
      exact (hasTriggerPrefix_eq_false_iff p).mp hfalse pre hpre
    · exfalso
      have heq : runPath pathname = scanLoop [] ((pathParts pathname).drop i) := by
        simp [runPath, hf]
      rw [heq] at h
      exact scanLoop_ne_noCandidate _ [] h
  · intro h
    have hnone : findStartAux 0 (pathParts pathname) = none :=
      (findStartAux_eq_none_iff (pathParts pathname) 0).mpr
        (fun p hp => (hasTriggerPrefix_eq_false_iff p).mpr (h p hp))
    simp [runPath, hnone]
  · intro i hi
    obtain ⟨_, h2, h3, h4⟩ := findStartAux_some_spec (pathParts pathname) 0 i hi
    refine ⟨by simpa using h2, by simpa using h3, ?_⟩
    intro j hj
    have := h4 j (by simpa using hj)
    simpa using this

/-- C2 witness: on `/a/7b` the start index is 1, pointing at the first
triggering segment, with the earlier segment non-triggering. -/
theorem claim2_no_candidate_iff_witness :
    1 < (pathParts (utf16 "/a/7b")).length
    ∧ hasTriggerPrefix ((pathParts (utf16 "/a/7b")).getD 1 []) = true
    ∧ ∀ j, j < 1 → hasTriggerPrefix ((pathParts (utf16 "/a/7b")).getD j []) = false :=
  (claim2_no_candidate_iff (utf16 "/a/7b")).2.2.2 1 rfl

/-- C3: the validator succeeds exactly when the text parses as JSON with an
object or array at top level; bare primitives are rejected, e.g. the text
`42` parses as the number 42 yet is rejected. -/
theorem claim3_validator (text : List Nat) :
    ((parseJson text text).isSome ↔
      ∃ v, jsonParse text = some v ∧ isObjOrArr v = true)
    ∧ (∀ r, parseJson text text = some r →
        jsonParse text = some r.value ∧ isObjOrArr r.value = true ∧ r.rawText = text)
    ∧ jsonParse (utf16 "42") = some (JVal.jnum 42 0)
    ∧ parseJson (utf16 "42") (utf16 "42") = none := by
  refine ⟨?_, ?_, rfl, rfl⟩
  · rcases hj : jsonParse text with _ | v
    · simp [parseJson, hj]
    · rcases hv : isObjOrArr v with _ | _
      · have : (jsTruthy v && jsTypeofIsObject v) = false := by
          rw [guard_eq_isObjOrArr, hv]
        simp only [parseJson, hj, this, Bool.false_eq_true, if_false]
        constructor
        · intro h; exact absurd h (by simp)
        · rintro ⟨w, hw, hw2⟩
          rw [Option.some.inj hw] at hv
          rw [hv] at hw2
          exact Bool.noConfusion hw2
      · have : (jsTruthy v && jsTypeofIsObject v) = true := by
          rw [guard_eq_isObjOrArr, hv]
        simp only [parseJson, hj, this, if_true]
        exact ⟨fun _ => ⟨v, rfl, hv⟩, fun _ => rfl⟩
  · intro r hr
    rcases hj : jsonParse text with _ | v
    · rw [parseJson, hj] at hr; exact Option.noConfusion hr
    · rw [parseJson, hj] at hr
      change (if (jsTruthy v && jsTypeofIsObject v) = true
        then some (⟨v, text⟩ : ParseOk) else none) = some r at hr
      rcases hg : (jsTruthy v && jsTypeofIsObject v) with _ | _
      · rw [hg] at hr; simp at hr
      · rw [hg, if_pos rfl] at hr
        cases Option.some.inj hr
        exact ⟨rfl, by rw [← guard_eq_isObjOrArr]; exact hg, rfl⟩

/-- C3 witness: the text `[]` parses to the empty array and the validator
accepts it. -/
theorem claim3_validator_witness :
    jsonParse (utf16 "[]") = some (JVal.jarr [])
    ∧ isObjOrArr (JVal.jarr []) = true ∧ utf16 "[]" = utf16 "[]" :=
  (claim3_validator (utf16 "[]")).2.1 ⟨JVal.jarr [], utf16 "[]"⟩ rfl

/-- C4: once a candidate's decode succeeds the scan terminates immediately:
the value is returned when the decoded text has at most 64,000 characters
(64,000 exactly is accepted), and the whole operation is the too-large
failure when it has 64,001 or more, with no further candidates tried. -/
theorem claim4_size_ceiling (acc p : List Nat) (rest : List (List Nat))
    (r : ParseOk) (h : tryParseJson (joinAcc acc p) = some r) :
    scanLoop acc (p :: rest)
      = (if 64000 < r.rawText.length then Outcome.payloadTooLarge
         else Outcome.success r.value)
    ∧ (r.rawText.length ≤ 64000 → scanLoop acc (p :: rest) = Outcome.success r.value)
    ∧ (64001 ≤ r.rawText.length →
        scanLoop acc (p :: rest) = Outcome.payloadTooLarge) := by
  have main : scanLoop acc (p :: rest)
      = (if 64000 < r.rawText.length then Outcome.payloadTooLarge
         else Outcome.success r.value) := by
    rw [scanLoop, h]
  refine ⟨main, ?_, ?_⟩
  · intro hle
    rw [main, if_neg (by omega)]
  · intro hgt
    rw [main, if_pos (by omega)]

/-- C4 witness: the first candidate `%7B%7D` decodes to the 2-character text
of the empty object and the scan succeeds at once, ignoring the later
segment. -/
theorem claim4_size_ceiling_witness :
    scanLoop [] [utf16 "%7B%7D", utf16 "x"] = Outcome.success (JVal.jobj []) :=
  (claim4_size_ceiling [] (utf16 "%7B%7D") [utf16 "x"]
    ⟨JVal.jobj [], utf16 "\x7b\x7d"⟩ rfl).2.1 (by decide)

/-- C5 counterexample: the path `/ey/%7B%22a%22%3A1%7D` contains a segment
that is the percent-encoded JSON text of the object with field `a = 1`,
yet the pipeline exhausts without any success, because the earlier `ey`
segment is the first trigger and every accumulated candidate fails. -/
theorem claim5_percent_cex :
    (utf16 "%7B%22a%22%3A1%7D") ∈ pathParts (utf16 "/ey/%7B%22a%22%3A1%7D")
    ∧ safeDecodeURIComponent (utf16 "%7B%22a%22%3A1%7D")
        = some (utf16 "\x7b\"a\":1\x7d")
    ∧ jsonParse (utf16 "\x7b\"a\":1\x7d")
        = some (JVal.jobj [(utf16 "a", JVal.jnum 1 0)])
    ∧ runPath (utf16 "/ey/%7B%22a%22%3A1%7D") = Outcome.exhausted
    ∧ ∀ v, runPath (utf16 "/ey/%7B%22a%22%3A1%7D") ≠ Outcome.success v := by
  refine ⟨by decide, rfl, rfl, rfl, ?_⟩
  intro v h
  rw [show runPath (utf16 "/ey/%7B%22a%22%3A1%7D") = Outcome.exhausted from rfl] at h
  exact Outcome.noConfusion h

/-- C5 (amended): if the first trigger segment of the path percent-decodes
to the JSON text of an object and that text is within the size ceiling,
the pipeline succeeds with exactly that object. -/
theorem claim5_percent_amended (pathname seg T : List Nat)
    (pre post : List (List Nat)) (fields : List (List Nat × JVal))
    (hsplit : pathParts pathname = pre ++ seg :: post)
    (hpre : ∀ p ∈ pre, hasTriggerPrefix p = false)
    (hseg : hasTriggerPrefix seg = true)
    (hdec : safeDecodeURIComponent seg = some T)
    (hparse : jsonParse T = some (JVal.jobj fields))
    (hlen : T.length ≤ 64000) :
    runPath pathname = Outcome.success (JVal.jobj fields) := by
  have hTne : T.isEmpty = false := by
    rcases T with _ | ⟨c, T2⟩
    · exact absurd ((show jsonParse ([] : List Nat) = none from rfl).symm.trans hparse)
        (by simp)
    · rfl
  have hatt1 : attempt1 seg = some ⟨JVal.jobj fields, T⟩ := by
    rw [attempt1, hdec]
    simp only [hTne, Bool.false_eq_true, if_false]
    rw [parseJson, hparse]
    simp [jsTruthy, jsTypeofIsObject]
  have htry : tryParseJson seg = some ⟨JVal.jobj fields, T⟩ := by
    rw [tryParseJson, attemptsOf, hatt1]
    rfl
  have hstart : findStartAux 0 (pathParts pathname) = some pre.length := by
    rw [hsplit]
    simpa using findStartAux_append pre seg post hpre hseg 0
  have hdrop : (pathParts pathname).drop pre.length = seg :: post := by
    rw [hsplit]
    exact List.drop_left pre (seg :: post)
  have hrun : runPath pathname = scanLoop [] (seg :: post) := by
    simp [runPath, hstart, hdrop]
  rw [hrun, scanLoop]
  have hjoin : joinAcc [] seg = seg := rfl
  rw [hjoin, htry]
  show (if 64000 < T.length then Outcome.payloadTooLarge
    else Outcome.success (JVal.jobj fields)) = Outcome.success (JVal.jobj fields)
  rw [if_neg (by omega)]

/-- C5 amended witness: the single-segment path `/%7B%22a%22%3A1%7D`
percent-decodes to the object with field `a = 1` and the pipeline returns
exactly it. -/
theorem claim5_percent_amended_witness :
    runPath (utf16 "/%7B%22a%22%3A1%7D")
      = Outcome.success (JVal.jobj [(utf16 "a", JVal.jnum 1 0)]) :=
  claim5_percent_amended (utf16 "/%7B%22a%22%3A1%7D") (utf16 "%7B%22a%22%3A1%7D")
    (utf16 "\x7b\"a\":1\x7d") [] [] [(utf16 "a", JVal.jnum 1 0)]
    rfl (fun p hp => absurd hp (List.not_mem_nil p)) rfl rfl rfl (by decide)

/-- C6: the scan examines exactly the `/`-joins of the segment ranges
`[startIndex..endIndex]` for increasing end index; each earlier candidate is
a prefix of each later one, both as a segment sequence and as a string, so
candidates never shrink. -/
theorem claim6_candidate_sequence (pathname : List Nat) (i : Nat)
    (hstart : findStartAux 0 (pathParts pathname) = some i) :
    runPath pathname
      = runOverCandidates (specCandidates ((pathParts pathname).drop i))
    ∧ (specCandidates ((pathParts pathname).drop i)).length
        = ((pathParts pathname).drop i).length
    ∧ (∀ n, n < ((pathParts pathname).drop i).length →
        (specCandidates ((pathParts pathname).drop i)).getD n []
          = joinSlash (((pathParts pathname).drop i).take (n + 1)))
    ∧ (∀ m n, m ≤ n → n < ((pathParts pathname).drop i).length →
        joinSlash (((pathParts pathname).drop i).take (m + 1))
          <+: joinSlash (((pathParts pathname).drop i).take (n + 1))
        ∧ ((pathParts pathname).drop i).take (m + 1)
          <+: ((pathParts pathname).drop i).take (n + 1)) := by
  have hne : ∀ p ∈ (pathParts pathname).drop i, p ≠ [] := fun p hp =>
    pathParts_ne_nil pathname p (List.mem_of_mem_drop hp)
  refine ⟨?_, specCandidates_length _, specCandidates_getD _, ?_⟩
  · have hrun : runPath pathname = scanLoop [] ((pathParts pathname).drop i) := by
      simp [runPath, hstart]
    rw [hrun, scanLoop_nil_eq_spec _ hne]
  · intro m n hmn hn
    exact ⟨joinSlash_take_mono _ m n hmn hn,
      List.take_prefix_take_left _ (by omega)⟩

/-- C6 witness: on `/7b/x` the scan runs over the two spec candidates and
the first is a prefix of the second. -/
theorem claim6_candidate_sequence_witness :
    runPath (utf16 "/7b/x")
      = runOverCandidates (specCandidates ((pathParts (utf16 "/7b/x")).drop 0))
    ∧ joinSlash (((pathParts (utf16 "/7b/x")).drop 0).take (0 + 1))
        <+: joinSlash (((pathParts (utf16 "/7b/x")).drop 0).take (1 + 1)) :=
  ⟨(claim6_candidate_sequence (utf16 "/7b/x") 0 rfl).1,
   ((claim6_candidate_sequence (utf16 "/7b/x") 0 rfl).2.2.2 0 1
     (by omega) (by decide)).1⟩

/-- C7 counterexample: the cleaned string of the standard-base64 attempt can
contain `=`, which is outside the claimed alphabet `A-Z a-z 0-9 + /`: on input
`ey=`, the stripped result keeps the `=`. -/
theorem claim7_b64std_strip_cex :
    (61 : Nat) ∈ stripNonB64Std (utf16 "ey=")
    ∧ isB64StdAlphabetChar 61 = false := ⟨by decide, rfl⟩

/-- C7 (amended): the fourth attempt's strip removes every character outside
the standard base64 alphabet extended with the padding character `=`, keeping
order and multiplicity (a sublist of the candidate). -/
theorem claim7_b64std_strip_amended (s : List Nat) :
    (∀ c ∈ stripNonB64Std s, isB64StdAlphabetChar c = true ∨ c = 61)
    ∧ List.Sublist (stripNonB64Std s) s
    ∧ ∀ c ∈ stripNonB64Std s, c ∈ s := by
  refine ⟨?_, List.filter_sublist s, fun c hc => List.mem_of_mem_filter hc⟩
  intro c hc
  have hk : isB64StdKeptChar c = true := List.of_mem_filter hc
  simp only [isB64StdKeptChar, Bool.or_eq_true, decide_eq_true_eq] at hk
  simp only [isB64StdAlphabetChar, Bool.or_eq_true, decide_eq_true_eq]
  tauto

/-- C7 amended witness: on input `ey=` the kept character 61 (`=`) is in the
extended alphabet and does come from the input. -/
theorem claim7_b64std_strip_amended_witness :
    (isB64StdAlphabetChar 61 = true ∨ (61 : Nat) = 61)
    ∧ (61 : Nat) ∈ utf16 "ey=" :=
  ⟨(claim7_b64std_strip_amended (utf16 "ey=")).1 61 (by decide),
   (claim7_b64std_strip_amended (utf16 "ey=")).2.2 61 (by decide)⟩

/-- C8: on the path `/7b22636c69656e745f6e616d65223a2274657374696e67227d/client.json`
the first five decode attempts fail on the first candidate, the hex attempt
succeeds, and the pipeline returns status 200 with exactly the object whose
field `client_name` is the string `testing`. -/
theorem claim8_hex_scenario :
    pathParts (utf16 "/7b22636c69656e745f6e616d65223a2274657374696e67227d/client.json")
      = [utf16 "7b22636c69656e745f6e616d65223a2274657374696e67227d",
         utf16 "client.json"]
    ∧ attempt1 (utf16 "7b22636c69656e745f6e616d65223a2274657374696e67227d") = none
    ∧ attempt2 (utf16 "7b22636c69656e745f6e616d65223a2274657374696e67227d") = none
    ∧ attempt3 (utf16 "7b22636c69656e745f6e616d65223a2274657374696e67227d") = none
    ∧ attempt4 (utf16 "7b22636c69656e745f6e616d65223a2274657374696e67227d") = none
    ∧ attempt5 (utf16 "7b22636c69656e745f6e616d65223a2274657374696e67227d") = none
    ∧ attempt6 (utf16 "7b22636c69656e745f6e616d65223a2274657374696e67227d")
        = some ⟨JVal.jobj [(utf16 "client_name", JVal.jstr (utf16 "testing"))],
                utf16 "\x7b\"client_name\":\"testing\"\x7d"⟩
    ∧ runPath (utf16 "/7b22636c69656e745f6e616d65223a2274657374696e67227d/client.json")
        = Outcome.success
            (JVal.jobj [(utf16 "client_name", JVal.jstr (utf16 "testing"))])
    ∧ statusOfOutcome
        (runPath (utf16 "/7b22636c69656e745f6e616d65223a2274657374696e67227d/client.json"))
        = 200 :=
  ⟨rfl, rfl, rfl, rfl, rfl, rfl, rfl, rfl, rfl⟩

/-- C9: the core pipeline outcome is a pure function of the request path:
two requests with the same pathname (whatever their method or query string)
get the same outcome. -/
theorem claim9_deterministic (r1 r2 : Request) (h : r1.pathname = r2.pathname) :
    coreOutcome r1 = coreOutcome r2 := by
  unfold coreOutcome
  rw [h]

/-- C9 witness: two requests differing in method and query but sharing the
pathname `/7b` get identical outcomes. -/
theorem claim9_deterministic_witness :
    coreOutcome ⟨utf16 "GET", utf16 "/7b", utf16 ""⟩
      = coreOutcome ⟨utf16 "HEAD", utf16 "/7b", utf16 "?q=1"⟩ :=
  claim9_deterministic ⟨utf16 "GET", utf16 "/7b", utf16 ""⟩
    ⟨utf16 "HEAD", utf16 "/7b", utf16 "?q=1"⟩ rfl

/-- C10: exactly the pathnames `/` and `/index.html` get the landing page;
root variants such as `/index.html/` and `//` enter the pipeline and, having
no triggering segment, get the 400 no-candidate response. -/
theorem claim10_landing_exact :
    (∀ pn : List Nat, fetchGet pn = FetchResult.landingPage ↔
        (pn = utf16 "/" ∨ pn = utf16 "/index.html"))
    ∧ fetchGet (utf16 "/index.html/") = FetchResult.api Outcome.noCandidateFound
    ∧ fetchGet (utf16 "//") = FetchResult.api Outcome.noCandidateFound
    ∧ statusOfOutcome Outcome.noCandidateFound = 400
    ∧ errorBodyOf Outcome.noCandidateFound
        = some (utf16 "No JSON-like segment found")
    ∧ (∀ pn : List Nat, ¬(pn = utf16 "/" ∨ pn = utf16 "/index.html") →
        (∀ p ∈ pathParts pn, hasTriggerPrefix p = false) →
        fetchGet pn = FetchResult.api Outcome.noCandidateFound) := by
  refine ⟨?_, rfl, rfl, rfl, rfl, ?_⟩
  · intro pn
    constructor
    · intro h
      by_cases hc : pn = utf16 "/" ∨ pn = utf16 "/index.html"
      · exact hc
      · rw [fetchGet, if_neg hc] at h
        exact FetchResult.noConfusion h
    · intro hc
      rw [fetchGet, if_pos hc]
  · intro pn hc hno
    have hnone : findStartAux 0 (pathParts pn) = none :=
      (findStartAux_eq_none_iff (pathParts pn) 0).mpr hno
    rw [fetchGet, if_neg hc]
    simp [runPath, hnone]

/-- C10 witness: the pathname `/x` is no root variant, has no triggering
segment, and gets the no-candidate response. -/
theorem claim10_landing_exact_witness :
    fetchGet (utf16 "/x") = FetchResult.api Outcome.noCandidateFound :=
  claim10_landing_exact.2.2.2.2.2 (utf16 "/x") (by decide) (by decide)

end Path2Json
